import Mathlib

/-!
Shallow embedding of the `ros_introspection` core of `rerun-ros`
(`src/ros_introspection/{type,field,message,msgspec}.rs`).

Strings are modelled as Lean `String`/`List Char`; machine integers as
`Nat`/`Int` with explicit reduction modulo `2 ^ 64` where Rust wraps.
Rust `Result`/panics are modelled by `Except RosError` with a dedicated
`panicked` constructor for aborts (`panic!` and out-of-range slicing),
kept distinct from returned errors.
-/

namespace RerunRos

/-! ### Rust character classes and string helpers -/

/-- The Unicode `White_Space` set used by Rust's `char::is_whitespace`
(and by the regex crate's `\s`). -/
def rustWhite (c : Char) : Bool :=
  let n := c.toNat
  (0x09 ≤ n && n ≤ 0x0D) || n == 0x20 || n == 0x85 || n == 0xA0 ||
  n == 0x1680 || (0x2000 ≤ n && n ≤ 0x200A) || n == 0x2028 || n == 0x2029 ||
  n == 0x202F || n == 0x205F || n == 0x3000

/-- The regex class `[a-zA-Z]`. -/
def alphaChar (c : Char) : Bool :=
  ('a' ≤ c && c ≤ 'z') || ('A' ≤ c && c ≤ 'Z')

/-- The regex class `[0-9]` (the regex crate's `\d` on ASCII inputs is used only via `[0-9]`
and `\d` on ASCII digit runs here). -/
def digitChar (c : Char) : Bool :=
  '0' ≤ c && c ≤ '9'

/-- The regex class `[a-zA-Z0-9_]`. -/
def identChar (c : Char) : Bool :=
  alphaChar c || digitChar c || c == '_'

/-- Rust `str::trim` (drop leading and trailing whitespace). -/
def rustTrim (l : List Char) : List Char :=
  ((l.dropWhile rustWhite).reverse.dropWhile rustWhite).reverse

/-- Split a maximal run of characters satisfying `p` off the front. -/
def takeRun (p : Char → Bool) : List Char → List Char × List Char
  | [] => ([], [])
  | c :: cs =>
    if p c then
      let (r, rest) := takeRun p cs
      (c :: r, rest)
    else ([], c :: cs)

/-- Rust `str::lines`: split at `'\n'`, strip a `'\r'` directly before each
`'\n'`, and do not yield a final empty piece after a trailing `'\n'`. -/
def rustLines (s : List Char) : List (List Char) :=
  go [] s
where
  /-- Here `acc` is the current line, reversed. -/
  go (acc : List Char) : List Char → List (List Char)
    | [] => if acc = [] then [] else [acc.reverse]
    | '\n' :: rest =>
      (match acc with
       | '\r' :: acc' => acc'.reverse
       | _ => acc.reverse) :: go [] rest
    | c :: rest => go (c :: acc) rest

/-- Does `l` start with `p`? -/
def startsWithChars : List Char → List Char → Bool
  | _, [] => true
  | [], _ :: _ => false
  | c :: cs, d :: ds => c == d && startsWithChars cs ds

/-! ### `DefaultHasher`: SipHash-1-3 with key (0, 0)

`calculate_hash` (type.rs:153) feeds the string into
`std::collections::hash_map::DefaultHasher`, i.e. SipHash-1-3 keyed with
`(0, 0)`; `Hash for str` writes the UTF-8 bytes followed by a `0xff`
terminator byte. All 64-bit arithmetic is `Nat` reduced mod `2 ^ 64`. -/

def two64 : Nat := 18446744073709551616

/-- Reduce modulo `2 ^ 64`. -/
def w64 (x : Nat) : Nat := x % two64

/-- Wrapping 64-bit addition. -/
def wadd (a b : Nat) : Nat := w64 (a + b)

/-- Left rotation on 64 bits (arguments assumed `< 2 ^ 64`). -/
def rotl (x n : Nat) : Nat := w64 ((x <<< n) ||| (x >>> (64 - n)))

/-- One SipHash round. -/
def sipRound : Nat × Nat × Nat × Nat → Nat × Nat × Nat × Nat
  | (v0, v1, v2, v3) =>
    let v0 := wadd v0 v1
    let v1 := rotl v1 13
    let v1 := v1 ^^^ v0
    let v0 := rotl v0 32
    let v2 := wadd v2 v3
    let v3 := rotl v3 16
    let v3 := v3 ^^^ v2
    let v0 := wadd v0 v3
    let v3 := rotl v3 21
    let v3 := v3 ^^^ v0
    let v2 := wadd v2 v1
    let v1 := rotl v1 17
    let v1 := v1 ^^^ v2
    let v2 := rotl v2 32
    (v0, v1, v2, v3)

/-- Little-endian value of a byte list (first byte least significant). -/
def le64 (bs : List Nat) : Nat :=
  bs.foldr (fun b acc => b + 256 * acc) 0

/-- One SipHash-1-3 compression step with message word `m`. -/
def sipCompress (v : Nat × Nat × Nat × Nat) (m : Nat) : Nat × Nat × Nat × Nat :=
  let (v0, v1, v2, v3) := v
  let v3 := v3 ^^^ m
  let (v0, v1, v2, v3) := sipRound (v0, v1, v2, v3)
  (v0 ^^^ m, v1, v2, v3)

/-- Process all full 8-byte chunks, returning the state and the tail. -/
def sipChunks (v : Nat × Nat × Nat × Nat) :
    List Nat → (Nat × Nat × Nat × Nat) × List Nat
  | b0 :: b1 :: b2 :: b3 :: b4 :: b5 :: b6 :: b7 :: rest =>
    sipChunks (sipCompress v (le64 [b0, b1, b2, b3, b4, b5, b6, b7])) rest
  | tail => (v, tail)

/-- SipHash-1-3 with key `(0, 0)` over a byte list. -/
def siphash13 (bytes : List Nat) : Nat :=
  let v0 : Nat := 0x736f6d6570736575
  let v1 : Nat := 0x646f72616e646f6d
  let v2 : Nat := 0x6c7967656e657261
  let v3 : Nat := 0x7465646279746573
  let len := bytes.length
  let (v, tail) := sipChunks (v0, v1, v2, v3) bytes
  let b := ((len % 256) <<< 56) ||| le64 tail
  let (v0, v1, v2, v3) := sipCompress v b
  let v2 := v2 ^^^ 0xff
  let (v0, v1, v2, v3) := sipRound (v0, v1, v2, v3)
  let (v0, v1, v2, v3) := sipRound (v0, v1, v2, v3)
  let (v0, v1, v2, v3) := sipRound (v0, v1, v2, v3)
  w64 (v0 ^^^ v1 ^^^ v2 ^^^ v3)

/-- UTF-8 encoding of one scalar value. -/
def utf8Char (c : Char) : List Nat :=
  let n := c.toNat
  if n < 0x80 then [n]
  else if n < 0x800 then [0xC0 ||| (n >>> 6), 0x80 ||| (n &&& 0x3F)]
  else if n < 0x10000 then
    [0xE0 ||| (n >>> 12), 0x80 ||| ((n >>> 6) &&& 0x3F), 0x80 ||| (n &&& 0x3F)]
  else
    [0xF0 ||| (n >>> 18), 0x80 ||| ((n >>> 12) &&& 0x3F),
     0x80 ||| ((n >>> 6) &&& 0x3F), 0x80 ||| (n &&& 0x3F)]

/-- UTF-8 bytes of a string. -/
def utf8Bytes (s : String) : List Nat :=
  (s.data.map utf8Char).flatten

/-- Model of `calculate_hash` (type.rs:153): `DefaultHasher` over the string. -/
def calculate_hash (s : String) : Nat :=
  siphash13 (utf8Bytes s ++ [0xff])

theorem calculate_hash_lt (s : String) : calculate_hash s < two64 :=
  Nat.mod_lt _ (by decide)

/-! ### `Type` (type.rs) -/

inductive BuiltinType where
  | Bool | Byte | Char | Float32 | Float64 | Int8 | Uint8 | Int16 | Uint16
  | Int32 | Uint32 | Int64 | Uint64 | String | WString | Other
deriving DecidableEq

/-- Model of `to_builtin_type` (type.rs:188): exact match of the whole argument
against the builtin vocabulary. -/
def to_builtin_type (s : String) : BuiltinType :=
  if s = "bool" then .Bool
  else if s = "byte" then .Byte
  else if s = "char" then .Char
  else if s = "float32" then .Float32
  else if s = "float64" then .Float64
  else if s = "int8" then .Int8
  else if s = "uint8" then .Uint8
  else if s = "int16" then .Int16
  else if s = "uint16" then .Uint16
  else if s = "int32" then .Int32
  else if s = "uint32" then .Uint32
  else if s = "int64" then .Int64
  else if s = "uint64" then .Uint64
  else if s = "string" then .String
  else if s = "wstring" then .WString
  else .Other

/-- Group 3 of the datatype regex: `[a-zA-Z][a-zA-Z0-9_]+` matched greedily
at the current position. -/
def msgG3 : List Char → Option (List Char)
  | [] => none
  | d :: tl =>
    if alphaChar d then
      let (r, _) := takeRun identChar tl
      if r = [] then none else some (d :: r)
    else none

/-- Try the regex `([a-zA-Z][a-zA-Z0-9_]+)/(msg/)?([a-zA-Z][a-zA-Z0-9_]+)`
anchored at the current position, returning `(group 1, group 3)`.
Group 1 is a maximal identifier run (identifier characters never include
`/`, so no shorter greedy backtrack can be followed by `/`); the optional
`msg/` is preferred when the tail still matches group 3, otherwise the
engine backtracks and matches group 3 directly after the slash. -/
def msgTryAt : List Char → Option (List Char × List Char)
  | [] => none
  | c :: rest =>
    if alphaChar c then
      let (run, rest2) := takeRun identChar rest
      if run = [] then none
      else
        match rest2 with
        | '/' :: rest3 =>
          (match rest3 with
           | 'm' :: 's' :: 'g' :: '/' :: rest4 =>
             (match msgG3 rest4 with
              | some g3 => some (c :: run, g3)
              | none =>
                match msgG3 rest3 with
                | some g3 => some (c :: run, g3)
                | none => none)
           | _ =>
             match msgG3 rest3 with
             | some g3 => some (c :: run, g3)
             | none => none)
        | _ => none
    else none

/-- Model of `regex::Regex::captures` for the datatype regex: leftmost match,
advancing the start position one character at a time. -/
def msgDatatypeCaptures : List Char → Option (List Char × List Char)
  | [] => none
  | c :: rest =>
    match msgTryAt (c :: rest) with
    | some r => some r
    | none => msgDatatypeCaptures rest

structure RosType where
  base_name : String
  pkg_name : String
  msg_name : String
  id : BuiltinType
  hash : Nat
deriving DecidableEq

namespace RosType

/-- Model of `Type::new_with_parent_package` (type.rs:32). The regex compiles
statically and capture groups 1 and 3 always participate in a match, so
the Rust `Result` never carries an error; the model is total. -/
def new_with_parent_package (name parent_pkg_name : String) : RosType :=
  let id := to_builtin_type name
  let hash := calculate_hash name
  match msgDatatypeCaptures name.data with
  | some (g1, g3) => ⟨name, String.mk g1, String.mk g3, id, hash⟩
  | none =>
    if id = .Other then ⟨name, parent_pkg_name, name, id, hash⟩
    else ⟨name, "", name, id, hash⟩

/-- Model of `Type::new` (type.rs:83). -/
def new (name : String) : RosType := new_with_parent_package name ""

/-- Model of `impl PartialEq for Type` (type.rs:124): compares the stored hashes. -/
def beq (a b : RosType) : Bool := a.hash == b.hash

end RosType

/-! ### Errors and panics -/

/-- Failure modes of the embedded code. `parseError` and `retrievalError`
are errors returned as `Result::Err`; `panicked` models a process abort
(`panic!` or an out-of-range string slice); `outOfFuel` is an artifact of
the fuel-based embedding of the unguarded `MsgSpec` recursion. -/
inductive RosError where
  | parseError (msg : String)
  | panicked (msg : String)
  | retrievalError (msg : String)
  | outOfFuel
deriving DecidableEq

deriving instance DecidableEq for Except

/-! ### `Field` (field.rs) -/

/-- Leftmost match of
`[a-zA-Z][a-zA-Z0-9_]*(/[a-zA-Z][a-zA-Z0-9_]*){0,1}(\[[0-9]*\]){0,1}`
anchored at the current position: identifier run, then an optional
`/identifier` segment (taken greedily when the character after `/` is a
letter), then an optional `[digits]` segment (taken when the digit run is
closed by `]`). Returns `(matched text, text after the match)`. -/
def typeTryAt : List Char → Option (List Char × List Char)
  | [] => none
  | c :: rest =>
    if alphaChar c then
      let (run, r1) := takeRun identChar rest
      let (seg2, r2) :=
        match r1 with
        | '/' :: d :: tl =>
          if alphaChar d then
            let (run2, r2') := takeRun identChar tl
            ('/' :: d :: run2, r2')
          else ([], '/' :: d :: tl)
        | _ => ([], r1)
      let (seg3, r3) :=
        match r2 with
        | '[' :: tl =>
          let (ds, r3') := takeRun digitChar tl
          (match r3' with
           | ']' :: tl2 => ('[' :: (ds ++ [']']), tl2)
           | _ => ([], '[' :: tl))
        | _ => ([], r2)
      some (c :: (run ++ seg2 ++ seg3), r3)
    else none

/-- Model of `type_regex.find` (field.rs:56): advance one character at a time. -/
def typeRegexFind : List Char → Option (List Char × List Char)
  | [] => none
  | c :: rest =>
    match typeTryAt (c :: rest) with
    | some r => some r
    | none => typeRegexFind rest

/-- Model of `field_regex.find` (field.rs:57): leftmost match of
`[a-zA-Z][a-zA-Z0-9_]*`. -/
def identFind : List Char → Option (List Char × List Char)
  | [] => none
  | c :: rest =>
    if alphaChar c then
      let (run, r) := takeRun identChar rest
      some (c :: run, r)
    else identFind rest

/-- Is there a bracket group `\[\d*\]` anchored here? Returns its digits. -/
def validBracketAt : List Char → Option (List Char)
  | '[' :: tl =>
    let (ds, r) := takeRun digitChar tl
    (match r with
     | ']' :: _ => some ds
     | _ => none)
  | _ => none

/-- Start position available to `.+` ending right before position `k`:
the position just after the last `'\n'` strictly before `k` (the regex
`.` does not match a newline). -/
def dotStart (s : List Char) (k : Nat) : Nat :=
  k - ((s.take k).reverse.takeWhile (· != '\n')).length

/-- Model of `array_regex.captures` (field.rs:58) for `(.+)(\[(\d*)\])`: leftmost
start for `.+`, then the greedy `.+` puts the bracket group at the last
bracket position reachable from that start. Returns `(group 1, group 3)`. -/
def arrayCaptures (s : List Char) : Option (List Char × List Char) :=
  let usable := (List.range s.length).filterMap fun k =>
    if dotStart s k < k then (validBracketAt (s.drop k)).map fun ds => (k, ds)
    else none
  match (usable.map fun kd => dotStart s kd.1).min? with
  | none => none
  | some p =>
    match (usable.filter fun kd => dotStart s kd.1 = p).getLast? with
    | none => none
    | some (k, ds) => some ((s.drop p).take (k - p), ds)

/-- First character not matching `\s`, with the text after it
(`Regex::new(r"\S")?.find(begin)`, field.rs:102). -/
def findNonWs : List Char → Option (Char × List Char)
  | [] => none
  | c :: cs => if rustWhite c then findNonWs cs else some (c, cs)

/-- Model of `begin[..what.start()]` for the leftmost match of `\s*#`: the text
before the first `#`, with the maximal whitespace run directly preceding
that `#` removed (it is absorbed by `\s*`). `none` when there is no `#`. -/
def beforeHash (l : List Char) : Option (List Char) :=
  if l.contains '#' then
    some (((l.takeWhile (· != '#')).reverse.dropWhile rustWhite).reverse)
  else none

def natOfDigits (ds : List Char) : Nat :=
  ds.foldl (fun a c => a * 10 + (c.toNat - 48)) 0

def isizeMax : Nat := 9223372036854775807

structure Field where
  fieldname : String
  field_type : RosType
  is_array : Bool
  array_size : Int
  is_constant : Bool
  value : String
deriving DecidableEq

namespace Field

/-- Model of `Field::new_with_type` (field.rs:27). -/
def new_with_type (field_type : RosType) (name : String) : Field :=
  ⟨name, field_type, false, 1, false, ""⟩

/-- The array-size step of `Field::new_with_definition` (field.rs:83-99):
on a bracket match, strip the suffix (group 1) and parse the digits. The
Rust `Captures::len` of `(.+)(\[(\d*)\])` is always 4 (whole match plus
three groups), so the `what.len() == 3` arm is dead and group 3 always
participates; `isize::from_str` fails only on an oversized digit run.
Returns (type string, is_array, array_size). -/
def arrayStep (ty0 : List Char) : Except RosError (List Char × Bool × Int) :=
  match arrayCaptures ty0 with
  | some (g1, ds) =>
    if ds = [] then .ok (g1, true, -1)
    else if natOfDigits ds ≤ isizeMax then .ok (g1, true, Int.ofNat (natOfDigits ds))
    else .error (.parseError "number too large to fit in target type")
  | none => .ok (ty0, false, 1)

/-- The constant/comment scan of `Field::new_with_definition`
(field.rs:101-129) on the text after the field name. `ty` is the type
string after array stripping (the code compares it against `"string"`).
Returns (is_constant, value). -/
def constScan (ty rest : List Char) : Bool × List Char :=
  match findNonWs rest with
  | none => (false, ([] : List Char))
  | some (c, afterEq) =>
    if c = '=' then
      let value0 :=
        if String.mk ty = "string" then afterEq
        else
          match beforeHash afterEq with
          | some pre => pre
          | none => afterEq
      (true, rustTrim value0)
    else if c = '#' then (false, ([] : List Char))
    else
      (false,
       match beforeHash rest with
       | some pre => pre
       | none => rest)

/-- Model of `Field::new_with_definition` (field.rs:54): match the type token,
then the field name, run the array step, then the constant scan. -/
def new_with_definition (definition : String) : Except RosError Field :=
  let cs := definition.data
  match typeRegexFind cs with
  | none => .error (.parseError ("Bad type when parsing field: " ++ definition))
  | some (ty0, rest0) =>
    match identFind rest0 with
    | none => .error (.parseError ("Bad field when parsing field: " ++ definition))
    | some (nm, rest) =>
      match arrayStep ty0 with
      | .error e => .error e
      | .ok (ty, is_array, array_size) =>
        let cv := constScan ty rest
        .ok ⟨String.mk nm, RosType.new (String.mk ty), is_array, array_size,
             cv.1, String.mk cv.2⟩

end Field

/-! ### `Message` (message.rs) -/

structure Message where
  msg_type : RosType
  fields : List Field
deriving DecidableEq

/-- Model of `Regex::new(r"(^\s*$|^\s*#)").is_match(line)` (message.rs:36): the
line is all whitespace, or its first non-whitespace character is `#`. -/
def skipLine (l : List Char) : Bool :=
  l.all rustWhite ||
  (match l.dropWhile rustWhite with
   | '#' :: _ => true
   | _ => false)

/-- Model of `&line[5..]` on a trimmed line starting with the four ASCII bytes
`MSG:`: panics (`none`) when the byte length is at most 4, or when byte 5
falls inside a multi-byte character. -/
def msgSliceAfter (lt : List Char) : Option (List Char) :=
  match lt.drop 4 with
  | [] => none
  | c :: rest => if c.toNat < 0x80 then some rest else none

/-- The line loop of `Message::new` (message.rs:39), with the partially
built message as accumulator. -/
def processLines : List (List Char) → Message → Except RosError Message
  | [], m => .ok m
  | l :: rest, m =>
    if skipLine l then processLines rest m
    else
      let lt := rustTrim l
      if startsWithChars lt ['M', 'S', 'G', ':'] then
        match msgSliceAfter lt with
        | none => .error (.panicked "byte index 5 is out of bounds or not a char boundary")
        | some r => processLines rest { m with msg_type := RosType.new (String.mk r) }
      else
        match Field.new_with_definition (String.mk lt) with
        | .ok f => processLines rest { m with fields := m.fields ++ [f] }
        | .error e => .error e

/-- Model of `Message::new` (message.rs:32). -/
def Message.new (defn : String) : Except RosError Message :=
  processLines (rustLines defn.data) ⟨RosType.new "", []⟩

/-! ### Splitter and `parse_message_definitions` (message.rs) -/

/-- Model of `line.starts_with("========")` after trimming. -/
def startsWith8Eq (lt : List Char) : Bool :=
  startsWithChars lt ['=', '=', '=', '=', '=', '=', '=', '=']

/-- The loop of `split_multiple_message_definitions` (message.rs:108),
with the current block accumulator `part`. -/
def splitLines : List (List Char) → String → List String
  | [], part => [part]
  | l :: rest, part =>
    let lt := rustTrim l
    if startsWith8Eq lt then part :: splitLines rest ""
    else splitLines rest (part ++ String.mk lt ++ "\n")

/-- Model of `split_multiple_message_definitions` (message.rs:104). -/
def split_multiple_message_definitions (multi_def : String) : List String :=
  splitLines (rustLines multi_def.data) ""

/-- The first loop of `parse_message_definitions` (message.rs:150):
visit block indices in reverse order, parse each block, and apply the
root-type fixup at index 0 (empty parsed type takes the supplied root
type when that is non-empty, and panics when both are empty).
Returns the messages and the known types in visit order. -/
def buildLoop (parts : List String) (root_type no_type : RosType) :
    List Nat → Except RosError (List Message × List RosType)
  | [] => .ok ([], [])
  | i :: is =>
    match Message.new (parts.getD i "") with
    | .error e => .error e
    | .ok msg =>
      let fixed : Except RosError Message :=
        if i = 0 then
          if RosType.beq msg.msg_type no_type && !RosType.beq root_type no_type then
            .ok { msg with msg_type := root_type }
          else if RosType.beq msg.msg_type no_type && RosType.beq root_type no_type then
            .error (.panicked "Message type unspecified")
          else .ok msg
        else .ok msg
      match fixed with
      | .error e => .error e
      | .ok m =>
        match buildLoop parts root_type no_type is with
        | .error e => .error e
        | .ok (msgs, known) => .ok (m :: msgs, m.msg_type :: known)

/-- The resolution pass of `parse_message_definitions` (message.rs:170)
for one field: when the field's type has an empty package, collect the
known types with the same short name; rebind to the first one whose
package equals the root's package, else to the first candidate. -/
def resolveField (known : List RosType) (root_type : RosType) (f : Field) : Field :=
  if f.field_type.pkg_name = "" then
    let guessed := known.filter fun k => f.field_type.msg_name = k.msg_name
    match guessed with
    | [] => f
    | g0 :: _ =>
      (match guessed.find? fun g => g.pkg_name = root_type.pkg_name with
       | some g => { f with field_type := g }
       | none => { f with field_type := g0 })
  else f

/-- Model of `parse_message_definitions` (message.rs:140). The `Arc::get_mut`
failure arms are unreachable (each `Arc` is uniquely owned at both call
sites) and are not modelled. -/
def parse_message_definitions (multi_def : String) (root_type : RosType) :
    Except RosError (List Message) :=
  let parts := split_multiple_message_definitions multi_def
  let no_type := RosType.new ""
  match buildLoop parts root_type no_type (List.range parts.length).reverse with
  | .error e => .error e
  | .ok (msgs, known) =>
    .ok ((msgs.map fun m =>
      { m with fields := m.fields.map (resolveField known root_type) }).reverse)

/-! ### `MsgSpec` (msgspec.rs)

The ament package lookup and the message-file read
(`get_message_definition`, msgspec.rs:91-102) are the sole I/O boundary;
they are modelled as an injected provider
`(package, message name) ↦ Option (file contents)`, `none` covering both
a missing package share directory and an unreadable file. The unguarded
recursion of `new_with_parent_package` is given a fuel parameter;
exhausted fuel is the distinguished artifact error `outOfFuel`. -/

inductive MsgSpecT where
  | mk (data : Message) (children : List MsgSpecT)

def MsgSpecT.data : MsgSpecT → Message
  | .mk d _ => d

def MsgSpecT.children : MsgSpecT → List MsgSpecT
  | .mk _ c => c

/-- The type-resolution step of `MsgSpec::get_message_definition`
(msgspec.rs:82-89): retry with the parent package hint when the plain
parse gives an unqualified non-builtin type. -/
def resolveTopic (topic_type parent_package : String) : RosType :=
  let message_type0 := RosType.new topic_type
  if message_type0.pkg_name = "" ∧ message_type0.id = BuiltinType.Other then
    RosType.new_with_parent_package topic_type parent_package
  else message_type0

/-- Model of `MsgSpec::get_message_definition` (msgspec.rs:78). -/
def get_message_definition (provider : String → String → Option String)
    (topic_type parent_package : String) : Except RosError Message :=
  let message_type := resolveTopic topic_type parent_package
  match provider message_type.pkg_name message_type.msg_name with
  | none =>
    .error (.retrievalError
      ("Could not find package share directory for package: " ++ message_type.pkg_name))
  | some contents =>
    match parse_message_definitions contents message_type with
    | .error e => .error e
    | .ok msgs => .ok (msgs.headD ⟨RosType.new "", []⟩)

/-- The field loop of `MsgSpec::new_with_parent_package` (msgspec.rs:48):
one recursive child per `Other`-classified field, in field order, with
the owning message's package as the parent hint. `rec` is the recursive
constructor for the next level. -/
def buildKids (rec : String → String → Except RosError MsgSpecT) :
    List Field → String → Except RosError (List MsgSpecT)
  | [], _ => .ok []
  | f :: fs, pkg =>
    if f.field_type.id = BuiltinType.Other then
      match rec f.field_type.base_name pkg with
      | .error e => .error e
      | .ok child =>
        match buildKids rec fs pkg with
        | .error e => .error e
        | .ok cs => .ok (child :: cs)
    else buildKids rec fs pkg

/-- One level of `MsgSpec::new_with_parent_package` (msgspec.rs:44). -/
def buildStep (provider : String → String → Option String)
    (rec : String → String → Except RosError MsgSpecT)
    (topic_type parent_package : String) : Except RosError MsgSpecT :=
  match get_message_definition provider topic_type parent_package with
  | .error e => .error e
  | .ok msg_def =>
    match buildKids rec msg_def.fields msg_def.msg_type.pkg_name with
    | .error e => .error e
    | .ok children => .ok (.mk msg_def children)

/-- Model of `MsgSpec::new_with_parent_package` (msgspec.rs:44), with fuel for the
unguarded recursion. -/
def buildMsgSpec (provider : String → String → Option String) :
    Nat → String → String → Except RosError MsgSpecT
  | 0 => fun _ _ => .error .outOfFuel
  | fuel + 1 => buildStep provider (buildMsgSpec provider fuel)

/-- Model of `MsgSpec::new` (msgspec.rs:26). -/
def MsgSpec.new (provider : String → String → Option String) (fuel : Nat)
    (topic_type : String) : Except RosError MsgSpecT :=
  buildMsgSpec provider fuel topic_type ""

/-! ### Derived observation functions and concrete fixtures -/

/-- The `MSG:` remainders that the line loop of `Message::new` feeds into
`Type::new`, in line order (skipped lines and field lines contribute
nothing; a `MSG:` line too short to slice contributes nothing because the
loop panics there). -/
def msgRemainders (ls : List (List Char)) : List (List Char) :=
  ls.filterMap fun l =>
    if skipLine l then none
    else
      let lt := rustTrim l
      if startsWithChars lt ['M', 'S', 'G', ':'] then msgSliceAfter lt else none

/-- Extract the success value of an `Except`, with a default. -/
def exceptOk {α : Type} (e : Except RosError α) (d : α) : α :=
  match e with
  | .ok a => a
  | .error _ => d

def mDefault : Message := ⟨RosType.new "", []⟩

def fDefault : Field := Field.new_with_type (RosType.new "") ""

def specDefault : MsgSpecT := .mk mDefault []

/-- Bundle text of the fixture message `pa/Aa` (one nested field). -/
def ctsA : String := "MSG: pa/Aa\nsb/Bb f\n"

/-- Bundle text of the fixture message `sb/Bb` (builtin fields only). -/
def ctsB : String := "MSG: sb/Bb\nint32 x\n"

/-- A two-entry definition provider whose reference graph is acyclic:
`pa/Aa` references `sb/Bb`, which is a leaf. -/
def providerW : String → String → Option String := fun pkg nm =>
  if pkg = "pa" ∧ nm = "Aa" then some ctsA
  else if pkg = "sb" ∧ nm = "Bb" then some ctsB
  else none

/-- The parsed fixture messages (their bundles carry explicit `MSG:`
headers, so parsing them does not depend on the root type). -/
def msgAval : Message :=
  (exceptOk (parse_message_definitions ctsA (RosType.new "")) []).headD mDefault

def msgBval : Message :=
  (exceptOk (parse_message_definitions ctsB (RosType.new "")) []).headD mDefault

/-- The single field of the fixture message `pa/Aa`. -/
def fldA : Field := msgAval.fields.headD fDefault

/-- The single field of the fixture message `sb/Bb`. -/
def fldB : Field := msgBval.fields.headD fDefault

/-- A rank certifying acyclicity of `providerW`'s reference graph: nodes
resolving to `pa/Aa` have rank 1, everything else rank 0. -/
def muW (t p : String) : Nat :=
  match get_message_definition providerW t p with
  | .ok m => if RosType.beq m.msg_type (RosType.new "pa/Aa") then 1 else 0
  | .error _ => 0

/-- The candidate known types for a field: those with the same short
name (message.rs:174-178). -/
def candsOf (known : List RosType) (f : Field) : List RosType :=
  known.filter fun k => f.field_type.msg_name = k.msg_name

/-- The resolution pass's behaviour on one field, as the specification
states it: no candidate leaves the field untouched; a candidate in the
root's package wins; otherwise the first candidate in accumulation
(reverse block) order wins; only the field's type is rebound. -/
def ResolvesPerClaim (known : List RosType) (root_type : RosType) (f : Field) : Prop :=
  (candsOf known f = [] → resolveField known root_type f = f) ∧
  ((∃ c ∈ candsOf known f, c.pkg_name = root_type.pkg_name) →
     (resolveField known root_type f).field_type ∈ candsOf known f ∧
     (resolveField known root_type f).field_type.pkg_name = root_type.pkg_name ∧
     resolveField known root_type f =
       { f with field_type := (resolveField known root_type f).field_type }) ∧
  (candsOf known f ≠ [] →
   (¬ ∃ c ∈ candsOf known f, c.pkg_name = root_type.pkg_name) →
     resolveField known root_type f =
       { f with field_type := (candsOf known f).headD (RosType.new "") })

/-- Fixture bundle for the resolver: an unqualified `Header` field in the
root block, a sibling block `std_msgs/Header`, root in `std_msgs`. -/
def mdW : String := "Header header\n========\nMSG: std_msgs/Header\nuint32 seq\n"

def rootW : RosType := RosType.new "std_msgs/Pose"

/-!
## Theorems

Helper lemmas first, then one theorem (plus witness or counterexample)
per claim of the specification.
-/

/- Sanity checks mirroring the unit tests of type.rs. -/
example : (RosType.new "std_msgs/msg/String").pkg_name = "std_msgs" := by decide
example : (RosType.new "std_msgs/msg/String").msg_name = "String" := by decide
example : (RosType.new "std_msgs/msg/String").id = .Other := by decide
example : (RosType.new "std_msgs/String").pkg_name = "std_msgs" := by decide
example : (RosType.new "std_msgs/String").msg_name = "String" := by decide
example : (RosType.new "String").pkg_name = "" := by decide
example : (RosType.new "String").msg_name = "String" := by decide
example : (RosType.new "int32").id = .Int32 := by decide
example : (RosType.new "int32").pkg_name = "" := by decide
example : RosType.beq (RosType.new "std_msgs/msg/String") (RosType.new "std_msgs/msg/String") = true := by
  decide
example : RosType.beq (RosType.new "std_msgs/msg/String") (RosType.new "std_msgs/msg/Int32") = false := by
  decide

/- Sanity checks mirroring the unit tests of field.rs. -/
example :
    Field.new_with_definition "int32 test_field" =
      .ok ⟨"test_field", RosType.new "int32", false, 1, false, ""⟩ := by decide
example :
    Field.new_with_definition "string[10] test_array" =
      .ok ⟨"test_array", RosType.new "string", true, 10, false, ""⟩ := by decide
example :
    Field.new_with_definition "string[] test_array" =
      .ok ⟨"test_array", RosType.new "string", true, -1, false, ""⟩ := by decide
example :
    Field.new_with_definition "float64 PI = 3.14159" =
      .ok ⟨"PI", RosType.new "float64", false, 1, true, "3.14159"⟩ := by decide

/- Sanity checks mirroring the unit tests of message.rs. -/
example :
    Message.new "\n            MSG: std_msgs/String\n            string data\n        " =
      .ok ⟨RosType.new "std_msgs/String",
           [⟨"data", RosType.new "string", false, 1, false, ""⟩]⟩ := by decide
example :
    split_multiple_message_definitions
      "\n            std_msgs/String\n            string data\n            ========\n            std_msgs/Int32\n            int32 data\n        " =
      ["\nstd_msgs/String\nstring data\n", "std_msgs/Int32\nint32 data\n\n"] := by decide
example :
    parse_message_definitions
      "\n            MSG: std_msgs/String\n            string data\n            ========\n            MSG: std_msgs/Int32\n            int32 data\n        "
      (RosType.new "std_msgs/String") =
      .ok [⟨RosType.new "std_msgs/String",
            [⟨"data", RosType.new "string", false, 1, false, ""⟩]⟩,
           ⟨RosType.new "std_msgs/Int32",
            [⟨"data", RosType.new "int32", false, 1, false, ""⟩]⟩] := by decide

/-- The stored hash of a constructed type is the hash of the raw name. -/
theorem RosType.hash_new_with_parent (name parent : String) :
    (RosType.new_with_parent_package name parent).hash = calculate_hash name := by
  unfold RosType.new_with_parent_package
  cases h : msgDatatypeCaptures name.data with
  | none => dsimp only; split <;> rfl
  | some p => cases p; rfl

theorem RosType.hash_new (name : String) :
    (RosType.new name).hash = calculate_hash name :=
  RosType.hash_new_with_parent name ""

/-- The stored builtin classification of a constructed type is
`to_builtin_type` of the raw name. -/
theorem RosType.id_new_with_parent (name parent : String) :
    (RosType.new_with_parent_package name parent).id = to_builtin_type name := by
  unfold RosType.new_with_parent_package
  cases h : msgDatatypeCaptures name.data with
  | none => dsimp only; split <;> rfl
  | some p => cases p; rfl

/-- The stored base name of a constructed type is the raw name. -/
theorem RosType.base_new_with_parent (name parent : String) :
    (RosType.new_with_parent_package name parent).base_name = name := by
  unfold RosType.new_with_parent_package
  cases h : msgDatatypeCaptures name.data with
  | none => dsimp only; split <;> rfl
  | some p => cases p; rfl

/-- By pigeonhole, the 64-bit string hash has a collision (no concrete
pair is exhibited; the proof is nonconstructive). -/
theorem exists_hash_collision :
    ∃ a b : String, a ≠ b ∧ calculate_hash a = calculate_hash b := by
  have hinj : Function.Injective fun n : ℕ => String.mk (List.replicate n 'a') := by
    intro m n h
    have h2 := congrArg (fun s : String => s.data.length) h
    simpa using h2
  haveI : Infinite String := Infinite.of_injective _ hinj
  obtain ⟨a, b, hne, h⟩ :=
    Finite.exists_ne_map_eq_of_infinite
      (fun s : String => (⟨calculate_hash s, calculate_hash_lt s⟩ : Fin two64))
  exact ⟨a, b, hne, congrArg Fin.val h⟩

/-- C4 (counterexample): it is false that two `Type`s are equal iff their
input strings are equal: equality compares 64-bit hashes of the base
names, and the hash necessarily identifies some pair of distinct
strings. -/
theorem type_eq_not_string_eq :
    ¬ ∀ a b : String,
        (RosType.beq (RosType.new a) (RosType.new b) = true ↔ a = b) := by
  intro hall
  obtain ⟨a, b, hne, hh⟩ := exists_hash_collision
  apply hne
  apply (hall a b).mp
  simp [RosType.beq, RosType.hash_new, hh]

/-- C4 (amended): `Type` equality is keyed solely on the 64-bit hash of
the verbatim `base_name`: it equals hash equality of the two input
strings, the two spellings of the documented example compare unequal,
but distinct inputs are not always unequal (the hash has collisions). -/
theorem type_eq_keyed_on_hash :
    (∀ a b : String, RosType.beq (RosType.new a) (RosType.new b) =
        (calculate_hash a == calculate_hash b)) ∧
    RosType.beq (RosType.new "std_msgs/String") (RosType.new "std_msgs/msg/String") = false ∧
    ∃ a b : String, a ≠ b ∧ RosType.beq (RosType.new a) (RosType.new b) = true := by
  refine ⟨fun a b => by simp [RosType.beq, RosType.hash_new], by decide, ?_⟩
  obtain ⟨a, b, hne, hh⟩ := exists_hash_collision
  exact ⟨a, b, hne, by simp [RosType.beq, RosType.hash_new, hh]⟩

/-- C6 (counterexample): the builtin classification is not determined by
the short name: `foo/int32` has short name `int32`, which is in the
builtin vocabulary, yet classifies as `Other`. -/
theorem builtin_kind_not_from_short_name :
    (RosType.new "foo/int32").msg_name = "int32" ∧
    to_builtin_type "int32" = BuiltinType.Int32 ∧
    (RosType.new "foo/int32").id = BuiltinType.Other ∧
    (RosType.new "foo/int32").id ≠ to_builtin_type ((RosType.new "foo/int32").msg_name) := by
  decide

/-- The builtin vocabulary of type.rs, as a list. -/
def builtinVocab : List String :=
  ["bool", "byte", "char", "float32", "float64", "int8", "uint8",
   "int16", "uint16", "int32", "uint32", "int64", "uint64",
   "string", "wstring"]

theorem to_builtin_type_other (s : String) (hmem : s ∉ builtinVocab) :
    to_builtin_type s = BuiltinType.Other := by
  have h1 : s ≠ "bool" := fun h => hmem (by rw [h]; decide)
  have h2 : s ≠ "byte" := fun h => hmem (by rw [h]; decide)
  have h3 : s ≠ "char" := fun h => hmem (by rw [h]; decide)
  have h4 : s ≠ "float32" := fun h => hmem (by rw [h]; decide)
  have h5 : s ≠ "float64" := fun h => hmem (by rw [h]; decide)
  have h6 : s ≠ "int8" := fun h => hmem (by rw [h]; decide)
  have h7 : s ≠ "uint8" := fun h => hmem (by rw [h]; decide)
  have h8 : s ≠ "int16" := fun h => hmem (by rw [h]; decide)
  have h9 : s ≠ "uint16" := fun h => hmem (by rw [h]; decide)
  have h10 : s ≠ "int32" := fun h => hmem (by rw [h]; decide)
  have h11 : s ≠ "uint32" := fun h => hmem (by rw [h]; decide)
  have h12 : s ≠ "int64" := fun h => hmem (by rw [h]; decide)
  have h13 : s ≠ "uint64" := fun h => hmem (by rw [h]; decide)
  have h14 : s ≠ "string" := fun h => hmem (by rw [h]; decide)
  have h15 : s ≠ "wstring" := fun h => hmem (by rw [h]; decide)
  simp only [to_builtin_type, if_neg h1, if_neg h2, if_neg h3, if_neg h4,
    if_neg h5, if_neg h6, if_neg h7, if_neg h8, if_neg h9, if_neg h10,
    if_neg h11, if_neg h12, if_neg h13, if_neg h14, if_neg h15]

/-- C6 (amended): the builtin classification is an exact match of the
whole raw `base_name` (not of the short name) against the closed
vocabulary `bool, byte, char, int8/uint8, int16/uint16, int32/uint32,
int64/uint64, float32, float64, string, wstring` — with no time/duration
aliases — and everything else yields `Other`. -/
theorem builtin_kind_from_base_name :
    (∀ name parent : String,
       (RosType.new_with_parent_package name parent).id = to_builtin_type name) ∧
    (∀ s : String, to_builtin_type s ≠ BuiltinType.Other ↔ s ∈ builtinVocab) := by
  constructor
  · exact RosType.id_new_with_parent
  · intro s
    constructor
    · intro hne
      by_contra hmem
      exact hne (to_builtin_type_other s hmem)
    · intro hmem
      simp only [builtinVocab, List.mem_cons, List.not_mem_nil, or_false] at hmem
      rcases hmem with rfl | rfl | rfl | rfl | rfl | rfl | rfl | rfl | rfl | rfl |
        rfl | rfl | rfl | rfl | rfl <;> decide

/-- C3 (code bug): with an empty first-block type, a non-empty root type
is assigned to the first message, but an empty root type makes
`parse_message_definitions` panic (`panic!("Message type unspecified")`,
message.rs:159) instead of returning the error its own documentation
promises. -/
theorem parse_defs_empty_root_panics :
    parse_message_definitions "string data" (RosType.new "std_msgs/String") =
      .ok [⟨RosType.new "std_msgs/String",
            [⟨"data", RosType.new "string", false, 1, false, ""⟩]⟩] ∧
    parse_message_definitions "string data" (RosType.new "") =
      .error (.panicked "Message type unspecified") := by
  decide

/-- On success, the message type produced by the line loop is the result
of rebinding the accumulator type once per `MSG:` remainder, in line
order (so each later remainder overwrites the earlier ones). -/
theorem processLines_msg_type :
    ∀ (ls : List (List Char)) (m r : Message),
      processLines ls m = .ok r →
      r.msg_type = (msgRemainders ls).foldl
        (fun _ rem => RosType.new (String.mk rem)) m.msg_type := by
  intro ls
  induction ls with
  | nil =>
    intro m r h
    simp only [processLines] at h
    cases h
    simp [msgRemainders]
  | cons l rest ih =>
    intro m r h
    unfold processLines at h
    by_cases hskip : skipLine l
    · rw [if_pos hskip] at h
      simpa [msgRemainders, List.filterMap_cons, hskip] using ih m r h
    · rw [if_neg hskip] at h
      by_cases hmsg : startsWithChars (rustTrim l) ['M', 'S', 'G', ':']
      · rw [if_pos hmsg] at h
        cases hsl : msgSliceAfter (rustTrim l) with
        | none => rw [hsl] at h; cases h
        | some rem =>
          rw [hsl] at h
          simpa [msgRemainders, List.filterMap_cons, hskip, hmsg, hsl] using ih _ r h
      · rw [if_neg hmsg] at h
        cases hf : Field.new_with_definition (String.mk (rustTrim l)) with
        | error e => rw [hf] at h; cases h
        | ok f =>
          rw [hf] at h
          simpa [msgRemainders, List.filterMap_cons, hskip, hmsg] using ih _ r h

/-- Folding a "replace the accumulator" step over a nonempty list yields
the image of the last element. -/
theorem foldl_replace_getLast? {α β : Type} (f : α → β) :
    ∀ (rs : List α) (init : β) (x : α),
      rs.getLast? = some x →
      rs.foldl (fun _ a => f a) init = f x := by
  intro rs
  induction rs with
  | nil => intro _ x h; cases h
  | cons a as ih =>
    intro init x h
    cases as with
    | nil => simp at h; simp [h]
    | cons b bs =>
      rw [List.foldl_cons]
      exact ih _ x (by rwa [List.getLast?_cons_cons] at h)

/-- C5 (counterexample): with two `MSG:` lines the parsed type comes from
the second line (`cd`), not from the first (`ab`): the first occurrence
does not win. -/
theorem message_msg_line_last_wins_cex :
    Message.new "MSG: ab\nMSG: cd" = .ok ⟨RosType.new "cd", []⟩ ∧
    RosType.new "cd" ≠ RosType.new "ab" := by
  decide

/-- C5 (amended): every `MSG:` line rebinds the message type to the type
parsed from that line's remainder (the text after the first five bytes),
so the LAST such line wins. -/
theorem message_msg_line_last_wins :
    ∀ (defn : String) (m : Message) (rem : List Char),
      Message.new defn = .ok m →
      (msgRemainders (rustLines defn.data)).getLast? = some rem →
      m.msg_type = RosType.new (String.mk rem) := by
  intro defn m rem hok hlast
  have h := processLines_msg_type _ _ _ hok
  rw [h]
  exact foldl_replace_getLast? _ _ _ _ hlast

/-- C5 witness: the amended theorem applied to the two-`MSG:`-line
document. -/
theorem message_msg_line_last_wins_app :
    (⟨RosType.new "cd", []⟩ : Message).msg_type = RosType.new (String.mk ['c', 'd']) :=
  message_msg_line_last_wins "MSG: ab\nMSG: cd" ⟨RosType.new "cd", []⟩ ['c', 'd']
    (by decide) (by decide)

/-- C9 (counterexample): an input containing a line whose trimmed content
is exactly `MSG:` does NOT always panic: an earlier malformed field line
makes `Message::new` return a parse error first. -/
theorem msg_short_line_error_not_panic :
    Message.new "x!\nMSG:" = .error (.parseError "Bad field when parsing field: x!") ∧
    RosError.parseError "Bad field when parsing field: x!" ≠
      RosError.panicked "byte index 5 is out of bounds or not a char boundary" :=
  ⟨by decide, fun h => RosError.noConfusion h⟩

/-- Reaching a line whose trimmed content is exactly `MSG:` aborts the
line loop through the out-of-range slice `line[5..]`, whatever
accumulator state has been built. -/
theorem processLines_panics (l : List Char) (rest : List (List Char)) :
    ∀ (pre : List (List Char)) (m : Message),
      skipLine l = false →
      rustTrim l = ['M', 'S', 'G', ':'] →
      (∀ l' ∈ pre, skipLine l' = true ∨
          startsWithChars (rustTrim l') ['M', 'S', 'G', ':'] = true ∨
          (Field.new_with_definition (String.mk (rustTrim l'))).isOk = true) →
      processLines (pre ++ l :: rest) m =
        .error (.panicked "byte index 5 is out of bounds or not a char boundary") := by
  intro pre
  induction pre with
  | nil =>
    intro m hskip htrim _
    simp only [List.nil_append]
    unfold processLines
    rw [hskip, htrim]
    rfl
  | cons p ps ih =>
    intro m hskip htrim hpre
    have hp := hpre p (by simp)
    rw [List.cons_append]
    unfold processLines
    by_cases hps : skipLine p
    · rw [if_pos hps]
      exact ih m hskip htrim fun l' hl' => hpre l' (by simp [hl'])
    · rw [if_neg hps]
      by_cases hmsg : startsWithChars (rustTrim p) ['M', 'S', 'G', ':']
      · rw [if_pos hmsg]
        cases hsl : msgSliceAfter (rustTrim p) with
        | none => rfl
        | some rem => exact ih _ hskip htrim fun l' hl' => hpre l' (by simp [hl'])
      · rw [if_neg hmsg]
        rcases hp with hp | hp | hp
        · exact absurd hp hps
        · exact absurd hp hmsg
        · cases hf : Field.new_with_definition (String.mk (rustTrim p)) with
          | error e => rw [hf] at hp; simp [Except.toBool] at hp
          | ok f => exact ih _ hskip htrim fun l' hl' => hpre l' (by simp [hl'])

/-- C9 (amended): the slice `line[("MSG:".len() + 1)..]` is not total:
whenever the line loop reaches a non-blank, non-comment line whose
trimmed content is exactly `MSG:` (every earlier line being skipped, a
`MSG:` line, or a field line that parses), `Message::new` panics through
the out-of-range slice instead of returning an error value. An earlier
malformed field line, however, preempts the panic with a returned parse
error. -/
theorem msg_short_line_panics :
    ∀ (defn : String) (pre rest : List (List Char)) (l : List Char),
      rustLines defn.data = pre ++ l :: rest →
      skipLine l = false →
      rustTrim l = ['M', 'S', 'G', ':'] →
      (∀ l' ∈ pre, skipLine l' = true ∨
          startsWithChars (rustTrim l') ['M', 'S', 'G', ':'] = true ∨
          (Field.new_with_definition (String.mk (rustTrim l'))).isOk = true) →
      Message.new defn =
        .error (.panicked "byte index 5 is out of bounds or not a char boundary") := by
  intro defn pre rest l hlines hskip htrim hpre
  unfold Message.new
  rw [hlines]
  exact processLines_panics l rest pre _ hskip htrim hpre

/-- C9 witness: the amended theorem applied to a document whose first
line is a well-formed field and whose second line is exactly `MSG:`. -/
theorem msg_short_line_panics_app :
    Message.new "string data\nMSG:" =
      .error (.panicked "byte index 5 is out of bounds or not a char boundary") :=
  msg_short_line_panics "string data\nMSG:" ["string data".data] [] "MSG:".data
    (by decide) (by decide) (by decide) (by decide)

/-- Shape of every successfully parsed field in terms of the matched
tokens: the array step succeeded and the field is assembled from its
output and the constant scan. -/
theorem field_ok_shape :
    ∀ (defn : String) (f : Field) (ty0 rest0 nm rest : List Char),
      Field.new_with_definition defn = .ok f →
      typeRegexFind defn.data = some (ty0, rest0) →
      identFind rest0 = some (nm, rest) →
      ∃ ty ia sz, Field.arrayStep ty0 = .ok (ty, ia, sz) ∧
        f = ⟨String.mk nm, RosType.new (String.mk ty), ia, sz,
             (Field.constScan ty rest).1, String.mk (Field.constScan ty rest).2⟩ := by
  intro defn f ty0 rest0 nm rest hok hty hfld
  unfold Field.new_with_definition at hok
  dsimp only at hok
  rw [hty] at hok
  dsimp only at hok
  rw [hfld] at hok
  dsimp only at hok
  cases has : Field.arrayStep ty0 with
  | error e => rw [has] at hok; exact Except.noConfusion hok
  | ok t3 =>
    obtain ⟨ty, ia, sz⟩ := t3
    rw [has] at hok
    dsimp only at hok
    cases hok
    exact ⟨ty, ia, sz, rfl, rfl⟩

/-- C8: for every successfully parsed field line, a bracket suffix on
the type token is stripped (the stored type is built from group 1),
`is_array` is true with `array_size` equal to `-1` for empty brackets
and to the parsed decimal otherwise; without a bracket suffix,
`is_array` is false and `array_size` is `1`. -/
theorem field_array_suffix :
    ∀ (defn : String) (f : Field) (ty0 rest0 nm rest : List Char),
      Field.new_with_definition defn = .ok f →
      typeRegexFind defn.data = some (ty0, rest0) →
      identFind rest0 = some (nm, rest) →
      (match arrayCaptures ty0 with
       | some (g1, ds) =>
         f.is_array = true ∧ f.field_type = RosType.new (String.mk g1) ∧
         (ds = [] → f.array_size = -1) ∧
         (ds ≠ [] → f.array_size = Int.ofNat (natOfDigits ds))
       | none =>
         f.is_array = false ∧ f.array_size = 1 ∧
         f.field_type = RosType.new (String.mk ty0)) := by
  intro defn f ty0 rest0 nm rest hok hty hfld
  obtain ⟨ty, ia, sz, has, rfl⟩ := field_ok_shape defn f ty0 rest0 nm rest hok hty hfld
  unfold Field.arrayStep at has
  cases hac : arrayCaptures ty0 with
  | none =>
    rw [hac] at has
    dsimp only at has
    cases has
    exact ⟨rfl, rfl, rfl⟩
  | some gd =>
    obtain ⟨g1, ds⟩ := gd
    rw [hac] at has
    dsimp only at has
    by_cases hds : ds = []
    · rw [if_pos hds] at has
      cases has
      exact ⟨rfl, rfl, fun _ => rfl, fun h => absurd hds h⟩
    · rw [if_neg hds] at has
      by_cases hsz : natOfDigits ds ≤ isizeMax
      · rw [if_pos hsz] at has
        cases has
        exact ⟨rfl, rfl, fun h => absurd h hds, fun _ => rfl⟩
      · rw [if_neg hsz] at has
        exact Except.noConfusion has

/-- C8 witness: the array theorem applied to `string[] test_array`
(empty brackets) and `int32 test_field` (no brackets). -/
theorem field_array_suffix_app :
    ((⟨"test_array", RosType.new "string", true, -1, false, ""⟩ : Field).is_array = true ∧
     (⟨"test_array", RosType.new "string", true, -1, false, ""⟩ : Field).array_size = -1) ∧
    ((⟨"test_field", RosType.new "int32", false, 1, false, ""⟩ : Field).is_array = false ∧
     (⟨"test_field", RosType.new "int32", false, 1, false, ""⟩ : Field).array_size = 1) := by
  have h1 := field_array_suffix "string[] test_array"
    ⟨"test_array", RosType.new "string", true, -1, false, ""⟩
    "string[]".data " test_array".data "test_array".data []
    (by decide) (by decide) (by decide)
  have h2 := field_array_suffix "int32 test_field"
    ⟨"test_field", RosType.new "int32", false, 1, false, ""⟩
    "int32".data " test_field".data "test_field".data []
    (by decide) (by decide) (by decide)
  rw [show arrayCaptures "string[]".data = some ("string".data, []) from by decide] at h1
  rw [show arrayCaptures "int32".data = none from by decide] at h2
  exact ⟨⟨h1.1, h1.2.2.1 rfl⟩, ⟨h2.1, h2.2.1⟩⟩

/-- C7 (counterexample): in the "any other character" branch the stored
literal is NOT trimmed of surrounding whitespace: `int32 x 5 ` stores
`" 5 "`. -/
theorem field_literal_untrimmed_cex :
    Field.new_with_definition "int32 x 5 " =
      .ok ⟨"x", RosType.new "int32", false, 1, false, " 5 "⟩ ∧
    String.mk (rustTrim " 5 ".data) ≠ " 5 " := by
  decide

/-- C7 (amended): after the type and field-name tokens, the first
non-whitespace character of the remainder decides: `=` makes the field
constant, with literal the rest of the line for `string`-typed fields
and the text before the first `#` otherwise, trimmed; `#` makes the rest
a comment (not constant, empty literal); any other character makes the
field not constant with literal the remainder up to the whitespace run
preceding the first `#` (or the full remainder) — NOT trimmed of leading
or trailing whitespace. -/
theorem field_constant_comment_scan :
    ∀ (defn : String) (f : Field) (ty0 rest0 nm rest : List Char),
      Field.new_with_definition defn = .ok f →
      typeRegexFind defn.data = some (ty0, rest0) →
      identFind rest0 = some (nm, rest) →
      (findNonWs rest = none → f.is_constant = false ∧ f.value = "") ∧
      (∀ c after, findNonWs rest = some (c, after) →
        (c = '=' → f.is_constant = true ∧
          f.value = String.mk (rustTrim
            (if f.field_type.base_name = "string" then after
             else match beforeHash after with | some pre => pre | none => after))) ∧
        (c = '#' → f.is_constant = false ∧ f.value = "") ∧
        (c ≠ '=' → c ≠ '#' → f.is_constant = false ∧
          f.value = String.mk
            (match beforeHash rest with | some pre => pre | none => rest))) := by
  intro defn f ty0 rest0 nm rest hok hty hfld
  obtain ⟨ty, ia, sz, _, rfl⟩ := field_ok_shape defn f ty0 rest0 nm rest hok hty hfld
  have hbase : (RosType.new (String.mk ty)).base_name = String.mk ty :=
    RosType.base_new_with_parent _ _
  constructor
  · intro hnw
    unfold Field.constScan
    rw [hnw]
    exact ⟨rfl, rfl⟩
  · intro c after hnw
    refine ⟨?_, ?_, ?_⟩
    · intro hc
      subst hc
      unfold Field.constScan
      rw [hnw]
      dsimp only
      rw [if_pos rfl, hbase]
      exact ⟨rfl, rfl⟩
    · intro hc
      subst hc
      unfold Field.constScan
      rw [hnw]
      dsimp only
      rw [if_neg (show ¬(('#' : Char) = '=') by decide), if_pos rfl]
      exact ⟨rfl, rfl⟩
    · intro hc1 hc2
      unfold Field.constScan
      rw [hnw]
      dsimp only
      rw [if_neg hc1, if_neg hc2]
      exact ⟨rfl, rfl⟩

/-- C7 witness: the scan theorem applied to `float64 PI = 3.14159`
(constant branch). -/
theorem field_constant_comment_scan_app :
    (⟨"PI", RosType.new "float64", false, 1, true, "3.14159"⟩ : Field).is_constant = true ∧
    (⟨"PI", RosType.new "float64", false, 1, true, "3.14159"⟩ : Field).value =
      String.mk (rustTrim
        (if (⟨"PI", RosType.new "float64", false, 1, true, "3.14159"⟩ : Field).field_type.base_name = "string"
         then " 3.14159".data
         else match beforeHash " 3.14159".data with | some pre => pre | none => " 3.14159".data)) := by
  have h := field_constant_comment_scan "float64 PI = 3.14159"
    ⟨"PI", RosType.new "float64", false, 1, true, "3.14159"⟩
    "float64".data " PI = 3.14159".data "PI".data " = 3.14159".data
    (by decide) (by decide) (by decide)
  exact (h.2 '=' " 3.14159".data (by decide)).1 rfl

/-- Splitting a line list whose first separator line is `sep`: the
block of the preceding lines is flushed (each stored trimmed, with a
newline), the separator itself is discarded, and splitting continues
after it. -/
theorem splitLines_cons (l : List Char) (rest : List (List Char)) (part : String) :
    splitLines (l :: rest) part =
      if startsWith8Eq (rustTrim l) = true then part :: splitLines rest ""
      else splitLines rest (part ++ String.mk (rustTrim l) ++ "\n") := rfl

theorem splitLines_sep :
    ∀ (pre post : List (List Char)) (sep : List Char) (part : String),
      (∀ l ∈ pre, startsWith8Eq (rustTrim l) = false) →
      startsWith8Eq (rustTrim sep) = true →
      splitLines (pre ++ sep :: post) part =
        (pre.foldl (fun acc l => acc ++ String.mk (rustTrim l) ++ "\n") part) ::
          splitLines post "" := by
  intro pre
  induction pre with
  | nil =>
    intro post sep part _ hsep
    rw [List.nil_append, splitLines_cons, if_pos hsep]
    rfl
  | cons p ps ih =>
    intro post sep part hpre hsep
    have hp := hpre p (by simp)
    rw [List.cons_append, splitLines_cons, if_neg (by simp [hp]), List.foldl_cons]
    exact ih post sep _ (fun l hl => hpre l (by simp [hl])) hsep

/-- C10: the multi-definition splitter treats any line whose trimmed
content merely BEGINS with eight `=` characters as a block separator
(trailing text on the separator line is irrelevant and the line is
discarded), and stores every retained line into its block trimmed of
leading and trailing whitespace, with a newline appended. -/
theorem splitter_separator_and_trim :
    ∀ (multi_def : String) (pre post : List (List Char)) (sep : List Char),
      rustLines multi_def.data = pre ++ sep :: post →
      (∀ l ∈ pre, startsWith8Eq (rustTrim l) = false) →
      startsWith8Eq (rustTrim sep) = true →
      split_multiple_message_definitions multi_def =
        (pre.foldl (fun acc l => acc ++ String.mk (rustTrim l) ++ "\n") "") ::
          splitLines post "" := by
  intro multi_def pre post sep hlines hpre hsep
  unfold split_multiple_message_definitions
  rw [hlines]
  exact splitLines_sep pre post sep "" hpre hsep

/-- C10 witness: a separator line with trailing text
(`======== comment`) ends the block; the retained lines `a ` and `b`
are stored trimmed. -/
theorem splitter_separator_and_trim_app :
    split_multiple_message_definitions "a \n======== comment\nb" = ["a\n", "b\n"] := by
  have h := splitter_separator_and_trim "a \n======== comment\nb"
    ["a ".data] ["b".data] "======== comment".data (by decide) (by decide) (by decide)
  rw [h]
  decide

/-- The resolution pass behaves on every field with an empty package as
the specification describes (the builtin restriction of the claim is not
even needed: the code checks only the package). -/
theorem resolveField_spec (known : List RosType) (root_type : RosType) (f : Field)
    (hpkg : f.field_type.pkg_name = "") :
    ResolvesPerClaim known root_type f := by
  unfold ResolvesPerClaim candsOf resolveField
  rw [if_pos hpkg]
  dsimp only
  cases hg : known.filter (fun k => f.field_type.msg_name = k.msg_name) with
  | nil =>
    refine ⟨fun _ => rfl, fun h => ?_, fun hne _ => absurd rfl hne⟩
    obtain ⟨c, hc, _⟩ := h
    exact absurd hc (List.not_mem_nil c)
  | cons g0 gs =>
    dsimp only
    cases hfind : List.find? (fun g => g.pkg_name = root_type.pkg_name) (g0 :: gs) with
    | none =>
      refine ⟨fun h => (List.cons_ne_nil _ _ h).elim, fun h => ?_, fun _ _ => rfl⟩
      obtain ⟨c, hc, hcp⟩ := h
      have hnone := List.find?_eq_none.mp hfind c hc
      simp [hcp] at hnone
    | some g =>
      have hgmem : g ∈ g0 :: gs := List.mem_of_find?_eq_some hfind
      have hgp : g.pkg_name = root_type.pkg_name := by
        have := List.find?_some hfind
        simpa using this
      exact ⟨fun h => (List.cons_ne_nil _ _ h).elim,
             fun _ => ⟨hgmem, hgp, rfl⟩,
             fun _ hno => absurd ⟨g, hgmem, hgp⟩ hno⟩

/-- C2: whenever `parse_message_definitions` succeeds, its output is the
block-wise parse (with the index-0 root fixup) whose fields each went
through the resolution pass once, and for every field whose type has an
empty package (in particular the non-builtin ones of the claim) that
pass collects the known types with a matching short name, prefers one in
the root's package, otherwise takes the first in reverse-accumulation
order, and leaves the field untouched when there is no candidate;
resolution itself never raises an error. -/
theorem resolver_unqualified_rebind :
    (∀ (multi_def : String) (root_type : RosType) (res : List Message),
       parse_message_definitions multi_def root_type = .ok res →
       ∃ msgs known,
         buildLoop (split_multiple_message_definitions multi_def) root_type (RosType.new "")
             (List.range (split_multiple_message_definitions multi_def).length).reverse =
           .ok (msgs, known) ∧
         res = (msgs.map fun m =>
           { m with fields := m.fields.map (resolveField known root_type) }).reverse ∧
         ∀ m ∈ msgs, ∀ f ∈ m.fields,
           f.field_type.pkg_name = "" → f.field_type.id = BuiltinType.Other →
           ResolvesPerClaim known root_type f) ∧
    (∀ (multi_def : String) (root_type : RosType) (msgs : List Message)
       (known : List RosType),
       buildLoop (split_multiple_message_definitions multi_def) root_type (RosType.new "")
           (List.range (split_multiple_message_definitions multi_def).length).reverse =
         .ok (msgs, known) →
       ∃ res, parse_message_definitions multi_def root_type = .ok res) := by
  constructor
  · intro multi_def root_type res hok
    unfold parse_message_definitions at hok
    dsimp only at hok
    cases hb : buildLoop (split_multiple_message_definitions multi_def) root_type
        (RosType.new "") (List.range (split_multiple_message_definitions multi_def).length).reverse with
    | error e => rw [hb] at hok; exact Except.noConfusion hok
    | ok p =>
      obtain ⟨msgs, known⟩ := p
      rw [hb] at hok
      dsimp only at hok
      cases hok
      exact ⟨msgs, known, rfl, rfl,
        fun m _ f _ hpkg _ => resolveField_spec known root_type f hpkg⟩
  · intro multi_def root_type msgs known hb
    unfold parse_message_definitions
    dsimp only
    rw [hb]
    exact ⟨_, rfl⟩

/-- C2 witness: the theorem applied to the `Header` fixture (unqualified
`Header` field, sibling `std_msgs/Header` block, root in `std_msgs`). -/
theorem resolver_unqualified_rebind_app :
    ∃ msgs known,
      buildLoop (split_multiple_message_definitions mdW) rootW (RosType.new "")
          (List.range (split_multiple_message_definitions mdW).length).reverse =
        .ok (msgs, known) ∧
      exceptOk (parse_message_definitions mdW rootW) [] =
        (msgs.map fun m =>
          { m with fields := m.fields.map (resolveField known rootW) }).reverse ∧
      ∀ m ∈ msgs, ∀ f ∈ m.fields,
        f.field_type.pkg_name = "" → f.field_type.id = BuiltinType.Other →
        ResolvesPerClaim known rootW f :=
  resolver_unqualified_rebind.1 mdW rootW
    (exceptOk (parse_message_definitions mdW rootW) []) (by rfl)

/-- Successful `buildKids` runs produce exactly one child per
`Other`-classified field, in field order, each child being a recursive
build at that field's base name with the given package hint. -/
theorem buildKids_spec (rec : String → String → Except RosError MsgSpecT) :
    ∀ (fields : List Field) (pkg : String) (cs : List MsgSpecT),
      buildKids rec fields pkg = .ok cs →
      List.Forall₂ (fun fl c => rec fl.field_type.base_name pkg = .ok c)
        (fields.filter fun fl => fl.field_type.id = BuiltinType.Other) cs := by
  intro fields
  induction fields with
  | nil =>
    intro pkg cs hok
    unfold buildKids at hok
    cases hok
    constructor
  | cons f fs ih =>
    intro pkg cs hok
    unfold buildKids at hok
    by_cases hO : f.field_type.id = BuiltinType.Other
    · rw [if_pos hO] at hok
      cases hc : rec f.field_type.base_name pkg with
      | error e => rw [hc] at hok; exact Except.noConfusion hok
      | ok child =>
        rw [hc] at hok
        dsimp only at hok
        cases hk : buildKids rec fs pkg with
        | error e => rw [hk] at hok; exact Except.noConfusion hok
        | ok cs' =>
          rw [hk] at hok
          dsimp only at hok
          cases hok
          rw [List.filter_cons, if_pos (by simp [hO])]
          exact List.Forall₂.cons hc (ih pkg cs' hk)
    · rw [if_neg hO] at hok
      rw [List.filter_cons, if_neg (by simp [hO])]
      exact ih pkg cs hok

/-- The function `buildKids` only looks at the recursive constructor on the
`Other`-classified fields. -/
theorem buildKids_congr (rec₁ rec₂ : String → String → Except RosError MsgSpecT) :
    ∀ (fields : List Field) (pkg : String),
      (∀ fl ∈ fields, fl.field_type.id = BuiltinType.Other →
         rec₁ fl.field_type.base_name pkg = rec₂ fl.field_type.base_name pkg) →
      buildKids rec₁ fields pkg = buildKids rec₂ fields pkg := by
  intro fields
  induction fields with
  | nil => intro pkg _; rfl
  | cons f fs ih =>
    intro pkg h
    unfold buildKids
    by_cases hO : f.field_type.id = BuiltinType.Other
    · rw [if_pos hO, if_pos hO, h f (by simp) hO,
        ih pkg fun fl hfl ho => h fl (by simp [hfl]) ho]
    · rw [if_neg hO, if_neg hO]
      exact ih pkg fun fl hfl ho => h fl (by simp [hfl]) ho

/-- Under an acyclicity rank `mu`, the fuel-indexed build is independent
of the fuel once it exceeds the rank: the unguarded recursion
terminates. -/
theorem buildMsgSpec_stable (provider : String → String → Option String)
    (mu : String → String → Nat)
    (hmu : ∀ t p m, get_message_definition provider t p = .ok m →
       ∀ fl ∈ m.fields, fl.field_type.id = BuiltinType.Other →
         mu fl.field_type.base_name m.msg_type.pkg_name < mu t p) :
    ∀ (f : Nat) (t p : String), mu t p < f →
      buildMsgSpec provider f t p = buildMsgSpec provider (mu t p + 1) t p := by
  intro f
  induction f using Nat.strong_induction_on with
  | _ f ih =>
    intro t p hf
    obtain ⟨f', rfl⟩ : ∃ f', f = f' + 1 := ⟨f - 1, by omega⟩
    show buildStep provider (buildMsgSpec provider f') t p =
      buildStep provider (buildMsgSpec provider (mu t p)) t p
    unfold buildStep
    cases hg : get_message_definition provider t p with
    | error e => rfl
    | ok m =>
      have hkids : buildKids (buildMsgSpec provider f') m.fields m.msg_type.pkg_name =
          buildKids (buildMsgSpec provider (mu t p)) m.fields m.msg_type.pkg_name := by
        apply buildKids_congr
        intro fl hfl hO
        have hc := hmu t p m hg fl hfl hO
        have h1 := ih f' (by omega) fl.field_type.base_name m.msg_type.pkg_name (by omega)
        have h2 := ih (mu t p) (by omega) fl.field_type.base_name m.msg_type.pkg_name (by omega)
        rw [h1, h2]
      dsimp only
      rw [hkids]

/-- Every successful build node has exactly the children prescribed by
its own message's `Other`-classified fields. -/
theorem buildMsgSpec_children (provider : String → String → Option String) :
    ∀ (fuel : Nat) (t p : String) (spec : MsgSpecT),
      buildMsgSpec provider fuel t p = .ok spec →
      List.Forall₂
        (fun fl c => buildMsgSpec provider (fuel - 1) fl.field_type.base_name
           spec.data.msg_type.pkg_name = .ok c)
        (spec.data.fields.filter fun fl => fl.field_type.id = BuiltinType.Other)
        spec.children := by
  intro fuel t p spec hok
  cases fuel with
  | zero => exact Except.noConfusion hok
  | succ f' =>
    have hok' : buildStep provider (buildMsgSpec provider f') t p = .ok spec := hok
    unfold buildStep at hok'
    cases hg : get_message_definition provider t p with
    | error e => rw [hg] at hok'; exact Except.noConfusion hok'
    | ok m =>
      rw [hg] at hok'
      dsimp only at hok'
      cases hk : buildKids (buildMsgSpec provider f') m.fields m.msg_type.pkg_name with
      | error e => rw [hk] at hok'; exact Except.noConfusion hok'
      | ok children =>
        rw [hk] at hok'
        dsimp only at hok'
        cases hok'
        simp only [MsgSpecT.data, MsgSpecT.children, Nat.add_sub_cancel]
        exact buildKids_spec _ _ _ _ hk

/-- C1: under any acyclicity rank `mu` for the definition provider's
reference graph, the `MsgSpec` construction (a) terminates — the result
is independent of the fuel bound once it exceeds the rank — and (b) at
every successfully built node produces exactly one child per
`Other`-classified field of that node's own message, in field order,
each child built from that field's base name with the node's own package
as the parent-package hint (builtin fields contribute no child). -/
theorem msgspec_children_per_other_field
    (provider : String → String → Option String) (mu : String → String → Nat)
    (hmu : ∀ t p m, get_message_definition provider t p = .ok m →
       ∀ fl ∈ m.fields, fl.field_type.id = BuiltinType.Other →
         mu fl.field_type.base_name m.msg_type.pkg_name < mu t p) :
    (∀ (t p : String) (f₁ f₂ : Nat), mu t p < f₁ → mu t p < f₂ →
       buildMsgSpec provider f₁ t p = buildMsgSpec provider f₂ t p) ∧
    (∀ (fuel : Nat) (t p : String) (spec : MsgSpecT),
       buildMsgSpec provider fuel t p = .ok spec →
       List.Forall₂
         (fun fl c => buildMsgSpec provider (fuel - 1) fl.field_type.base_name
            spec.data.msg_type.pkg_name = .ok c)
         (spec.data.fields.filter fun fl => fl.field_type.id = BuiltinType.Other)
         spec.children) := by
  constructor
  · intro t p f₁ f₂ h₁ h₂
    rw [buildMsgSpec_stable provider mu hmu f₁ t p h₁,
        buildMsgSpec_stable provider mu hmu f₂ t p h₂]
  · exact buildMsgSpec_children provider

/-- The fixture bundle `ctsA` carries an explicit `MSG:` header and no
unqualified fields, so parsing it is independent of the root type. -/
theorem parseA (root : RosType) :
    parse_message_definitions ctsA root = .ok [msgAval] := rfl

/-- Same for `ctsB`. -/
theorem parseB (root : RosType) :
    parse_message_definitions ctsB root = .ok [msgBval] := rfl

/-- The rank `muW` is an acyclicity rank for `providerW`: the definition of every
node that resolves decreases it on every `Other`-classified field. -/
theorem providerW_mu :
    ∀ t p m, get_message_definition providerW t p = .ok m →
      ∀ fl ∈ m.fields, fl.field_type.id = BuiltinType.Other →
        muW fl.field_type.base_name m.msg_type.pkg_name < muW t p := by
  intro t p m h fl hfl hO
  have h0 := h
  unfold get_message_definition at h
  dsimp only at h
  generalize hmt : resolveTopic t p = mt at h
  unfold providerW at h
  by_cases hA : mt.pkg_name = "pa" ∧ mt.msg_name = "Aa"
  · rw [if_pos hA] at h
    dsimp only at h
    rw [parseA mt] at h
    dsimp only [List.headD] at h
    cases h
    rw [show msgAval.fields = [fldA] from rfl] at hfl
    have hflA : fl = fldA := by simpa using hfl
    rw [hflA]
    have hL : muW fldA.field_type.base_name msgAval.msg_type.pkg_name = 0 := by decide
    have hR : muW t p = 1 := by
      unfold muW
      rw [h0]
      decide
    rw [hL, hR]
    decide
  · rw [if_neg hA] at h
    by_cases hB : mt.pkg_name = "sb" ∧ mt.msg_name = "Bb"
    · rw [if_pos hB] at h
      dsimp only at h
      rw [parseB mt] at h
      dsimp only [List.headD] at h
      cases h
      rw [show msgBval.fields = [fldB] from rfl] at hfl
      have hflB : fl = fldB := by simpa using hfl
      rw [hflB] at hO
      exact absurd hO (by decide)
    · rw [if_neg hB] at h
      exact Except.noConfusion h

/-- C1 witness: the theorem applied to the two-message acyclic fixture
provider; the build of `pa/Aa` is fuel-independent and its node
structure matches its single `Other` field. -/
theorem msgspec_children_per_other_field_app :
    buildMsgSpec providerW 5 "pa/Aa" "" = buildMsgSpec providerW 17 "pa/Aa" "" ∧
    List.Forall₂
      (fun fl c => buildMsgSpec providerW 4 fl.field_type.base_name
         (exceptOk (buildMsgSpec providerW 5 "pa/Aa" "") specDefault).data.msg_type.pkg_name = .ok c)
      ((exceptOk (buildMsgSpec providerW 5 "pa/Aa" "") specDefault).data.fields.filter
         fun fl => fl.field_type.id = BuiltinType.Other)
      (exceptOk (buildMsgSpec providerW 5 "pa/Aa" "") specDefault).children := by
  have H := msgspec_children_per_other_field providerW muW providerW_mu
  refine ⟨H.1 "pa/Aa" "" 5 17 (by decide) (by decide), ?_⟩
  exact H.2 5 "pa/Aa" "" (exceptOk (buildMsgSpec providerW 5 "pa/Aa" "") specDefault) (by rfl)

end RerunRos
